import Mathlib

/-!
Verification of the `SocketBase` messaging endpoint (SocketBase.py).

The endpoint is embedded shallowly and sequentially:

* bytes are `List Nat` (each element a byte value produced by `% 256`);
* `struct.pack` of an out-of-range integer raises `struct.error`, modelled
  by `Option` (`none` = exception propagates, state unchanged at the
  caller that observes it);
* the Python dicts `keepresult` and `callback` are association lists with
  Python-dict semantics (insert replaces, delete removes the key);
* callbacks `(fn, userdata)` are opaque identifiers (`Nat`); an invocation
  is recorded as an event rather than executed;
* the socket is replaced by a script: a list of byte chunks, one chunk per
  readiness cycle of `handleVectorMessages4`, plus fuel bounding the
  number of cycles of the `while True` loop;
* the latency-simulation thread of the source is modelled by `send1`
  appending to the `slow` list (exactly as the source does) and by
  `latencyTransfer`, which performs the transfer step of that thread.

Events (`Ev`) instrument the embedding: an event is appended exactly where
the source performs the corresponding side effect (committing bytes to the
outbound path, inserting a correlation entry, invoking a callback, storing,
returning or discarding a received message).
-/

namespace SocketBase

abbrev Bytes := List Nat

/-- A decoded vector message: `(vector, rvector, payload)`. -/
abbrev VMsg := Nat × Nat × Bytes

/-- Big-endian encoding of `v` into `n` bytes (as `struct.pack` does for
`>I` with `n = 4` and `>Q` with `n = 8`, given `v` in range). -/
def be (n : Nat) (v : Nat) : Bytes :=
  match n with
  | 0 => []
  | k + 1 => be k (v / 256) ++ [v % 256]

/-- Big-endian decoding, as `struct.unpack` does. -/
def beVal (bs : Bytes) : Nat := bs.foldl (fun acc b => acc * 256 + b) 0

theorem be_length (n v : Nat) : (be n v).length = n := by
  induction n generalizing v with
  | zero => rfl
  | succ k ih => simp [be, ih]

theorem beVal_be (n v : Nat) (h : v < 256 ^ n) : beVal (be n v) = v := by
  induction n generalizing v with
  | zero =>
    have hv : v = 0 := by simpa [Nat.lt_one_iff] using h
    subst hv
    rfl
  | succ k ih =>
    have hdiv : v / 256 < 256 ^ k := by
      rw [Nat.div_lt_iff_lt_mul (by norm_num)]
      calc v < 256 ^ (k + 1) := h
        _ = 256 ^ k * 256 := by ring
    have hstep : beVal (be (k + 1) v) = beVal (be k (v / 256)) * 256 + v % 256 := by
      simp [be, beVal, List.foldl_append]
    rw [hstep, ih (v / 256) hdiv]
    omega

/-- Association list with Python-dict semantics.  Keys are the 64-bit
vectors; `α` is the stored value. -/
abbrev Dict (α : Type) := List (Nat × α)

def dictLookup {α : Type} : Dict α → Nat → Option α
  | [], _ => none
  | (k', v) :: rest, k => if k' = k then some v else dictLookup rest k

def dictContains {α : Type} (d : Dict α) (k : Nat) : Bool :=
  (dictLookup d k).isSome

/-- `d[k] = v` in Python: replaces the existing binding or appends. -/
def dictInsert {α : Type} : Dict α → Nat → α → Dict α
  | [], k, v => [(k, v)]
  | (k', v') :: rest, k, v =>
    if k' = k then (k, v) :: rest else (k', v') :: dictInsert rest k v

/-- `del d[k]` in Python (keys are unique in any reachable dict). -/
def dictErase {α : Type} : Dict α → Nat → Dict α
  | [], _ => []
  | (k', v') :: rest, k => if k' = k then rest else (k', v') :: dictErase rest k

theorem dictLookup_insert_self {α : Type} (d : Dict α) (k : Nat) (v : α) :
    dictLookup (dictInsert d k v) k = some v := by
  induction d with
  | nil => simp [dictInsert, dictLookup]
  | cons p rest ih =>
    by_cases h : p.1 = k
    · simp [dictInsert, h, dictLookup]
    · simp [dictInsert, h, dictLookup, ih]

theorem dictLookup_insert_ne {α : Type} (d : Dict α) (k k' : Nat) (v : α)
    (h : k ≠ k') : dictLookup (dictInsert d k v) k' = dictLookup d k' := by
  induction d with
  | nil => simp [dictInsert, dictLookup, h]
  | cons p rest ih =>
    by_cases hp : p.1 = k
    · simp [dictInsert, hp, dictLookup, h]
    · simp [dictInsert, hp, dictLookup, ih]

theorem dictLookup_erase_ne {α : Type} (d : Dict α) (k k' : Nat)
    (h : k ≠ k') : dictLookup (dictErase d k) k' = dictLookup d k' := by
  induction d with
  | nil => simp [dictErase]
  | cons p rest ih =>
    by_cases hp : p.1 = k
    · simp [dictErase, hp, dictLookup, h]
    · simp [dictErase, hp, dictLookup, ih]

theorem dictContains_insert {α : Type} (d : Dict α) (k k' : Nat) (v : α) :
    dictContains (dictInsert d k v) k' =
      (decide (k = k') || dictContains d k') := by
  by_cases h : k = k'
  · subst h
    simp [dictContains, dictLookup_insert_self]
  · simp [dictContains, dictLookup_insert_ne d k k' v h, h]

theorem dictLookup_eq_none_of_not_mem {α : Type} (d : Dict α) (k : Nat)
    (h : k ∉ d.map Prod.fst) : dictLookup d k = none := by
  induction d with
  | nil => rfl
  | cons p rest ih =>
    simp only [List.map_cons, List.mem_cons, not_or] at h
    have hne : ¬ p.1 = k := fun hh => h.1 hh.symm
    simp only [dictLookup, if_neg hne]
    exact ih h.2

theorem dictContains_erase_self {α : Type} (d : Dict α) (k : Nat)
    (hnd : (d.map Prod.fst).Nodup) :
    dictContains (dictErase d k) k = false := by
  induction d with
  | nil => simp [dictContains, dictErase, dictLookup]
  | cons p rest ih =>
    simp only [List.map_cons, List.nodup_cons] at hnd
    by_cases hp : p.1 = k
    · simp only [dictErase, if_pos hp, dictContains]
      rw [dictLookup_eq_none_of_not_mem rest k (hp ▸ hnd.1)]
      rfl
    · simp only [dictErase, if_neg hp, dictContains, dictLookup, if_neg hp]
      exact ih hnd.2

theorem dictErase_keys_sublist {α : Type} (d : Dict α) (k : Nat) :
    ((dictErase d k).map Prod.fst).Sublist (d.map Prod.fst) := by
  induction d with
  | nil => simp [dictErase]
  | cons p rest ih =>
    by_cases hp : p.1 = k
    · simp only [dictErase, if_pos hp, List.map_cons]
      exact (List.sublist_cons_self _ _)
    · simp only [dictErase, if_neg hp, List.map_cons]
      exact ih.cons₂ p.1

theorem dictErase_keys_nodup {α : Type} (d : Dict α) (k : Nat)
    (hnd : (d.map Prod.fst).Nodup) :
    ((dictErase d k).map Prod.fst).Nodup :=
  hnd.sublist (dictErase_keys_sublist d k)

/-- The four I/O modes of layer 4 (`class IOMode` in the source: plain
integer constants). -/
def IOMode.Block : Nat := 0

def IOMode.Async : Nat := 1

def IOMode.Callback : Nat := 2

def IOMode.Discard : Nat := 3

/-- The mutable state of a `SocketBase` object: the fields of `__init__`
that the claims concern.  `slow`/`slowsz` are the latency-simulation
buffer the source routes `send1` data through; callbacks are stored as
opaque identifiers. -/
structure St where
  inbuf : Bytes
  inbuf_cursz : Option Nat
  oubuf : List Bytes
  oubufsz : Nat
  vector : Nat
  keepresult : Dict (Option VMsg)
  callback : Dict Nat
  slow : List Bytes
  slowsz : Nat
deriving DecidableEq

/-- The state `__init__` builds around a fresh socket. -/
def initSocketBase : St :=
  { inbuf := [], inbuf_cursz := none, oubuf := [], oubufsz := 0,
    vector := 0, keepresult := [], callback := [], slow := [], slowsz := 0 }

/-- Observable side effects, recorded in source order.  `commit` is data
handed to the outbound wire path (`send1` with data); the `insert`
events are the correlation-table writes of `sendVectorMessageWithMode4`;
the remaining four are the per-message actions of the dispatch loop of
`handleVectorMessages4`. -/
inductive Ev where
  | commit (data : Bytes)
  | insertAwait (k : Nat)
  | insertCallback (k : Nat)
  | toCaller (v rv : Nat) (m : Bytes)
  | stored (v rv : Nat) (m : Bytes)
  | fired (cb v rv : Nat) (m : Bytes)
  | discarded (v rv : Nat) (m : Bytes)
deriving DecidableEq

/-- `send1`: in the source, data is appended to the latency-simulation
list `slow` (the simulation thread later moves it to `oubuf`); calling
`send1` with no data does nothing in this version.  The `block` flag is
accepted and ignored, exactly as the latency-simulation `send1` does. -/
def send1 (s : St) (data : Option Bytes) (_block : Bool) : St × List Ev :=
  match data with
  | some d =>
    ({ s with slow := s.slow ++ [d], slowsz := s.slowsz + d.length }, [.commit d])
  | none => (s, [])

def getOutBufferSize1 (s : St) : Nat := s.oubufsz

/-- One transfer step of the latency-simulation thread: items older than
two seconds — a prefix of `slow`, since items are appended in time
order — are appended to `oubuf` and the two size counters adjusted. -/
def latencyTransfer (k : Nat) (s : St) : St :=
  let moved := s.slow.take k
  { s with slow := s.slow.drop k,
           slowsz := s.slowsz - (moved.map List.length).sum,
           oubuf := s.oubuf ++ moved,
           oubufsz := s.oubufsz + (moved.map List.length).sum }

/-- `sendMessage2`: length-prefix the message (`struct.pack` of `>I`
fails for a length of `2 ^ 32` or more) and hand it to `send1`. -/
def sendMessage2 (s : St) (msg : Bytes) (block : Bool) : Option (St × List Ev) :=
  if msg.length < 2 ^ 32 then
    some (send1 s (some (be 4 msg.length ++ msg)) block)
  else none

/-- `sendVectorMessage3`: prepend `be64(vector) || be64(rvector)`
(`struct.pack` of `>QQ` fails outside 64-bit range), send as a layer-2
message, then return the pre-increment counter and bump it. -/
def sendVectorMessage3 (s : St) (msg : Bytes) (rvector : Nat) (block : Bool) :
    Option (Nat × St × List Ev) :=
  if s.vector < 2 ^ 64 ∧ rvector < 2 ^ 64 then
    match sendMessage2 s (be 8 s.vector ++ be 8 rvector ++ msg) block with
    | none => none
    | some (s1, evs) => some (s.vector, { s1 with vector := s1.vector + 1 }, evs)
  else none

/-- `getMessage2`: append any fed data to the accumulation buffer; if no
frame length is cached and *more than* 4 bytes are buffered (the source
comparison is `>`), parse the big-endian length; if the full payload is
buffered, cut it out and reset to header-pending. -/
def getMessage2 (s : St) (data : Option Bytes) : Option Bytes × St :=
  let buf := s.inbuf ++ data.getD []
  match s.inbuf_cursz with
  | none =>
    if buf.length > 4 then
      let sz := beVal (buf.take 4)
      if buf.length - 4 ≥ sz then
        (some ((buf.drop 4).take sz),
         { s with inbuf := buf.drop (4 + sz), inbuf_cursz := none })
      else (none, { s with inbuf := buf, inbuf_cursz := some sz })
    else (none, { s with inbuf := buf })
  | some sz =>
    if buf.length - 4 ≥ sz then
      (some ((buf.drop 4).take sz),
       { s with inbuf := buf.drop (4 + sz), inbuf_cursz := none })
    else (none, { s with inbuf := buf })

/-- The `while True` loop of `getAllMessages2` after the first call:
keep popping until `getMessage2` returns nothing.  Each successful pop
removes at least the 4 header bytes from the buffer, so a fuel of the
buffer length is always enough. -/
def drainMessages2 : Nat → St → List Bytes × St
  | 0, s => ([], s)
  | fuel + 1, s =>
    match getMessage2 s none with
    | (none, s1) => ([], s1)
    | (some m, s1) =>
      let (ms, s2) := drainMessages2 fuel s1
      (m :: ms, s2)

def getAllMessages2 (s : St) (data : Option Bytes) : List Bytes × St :=
  match getMessage2 s data with
  | (none, s1) => ([], s1)
  | (some m, s1) =>
    let (ms, s2) := drainMessages2 (s1.inbuf.length + 1) s1
    (m :: ms, s2)

/-- `getVectorMessage3`: pop one layer-2 message and split the 16-byte
vector header.  `struct.unpack_from` raises on a message shorter than 16
bytes; that exception is the outer `none`. -/
def getVectorMessage3 (s : St) (data : Option Bytes) :
    Option (Option VMsg) × St :=
  match getMessage2 s data with
  | (none, s1) => (some none, s1)
  | (some m, s1) =>
    if m.length < 16 then (none, s1)
    else (some (some (beVal (m.take 8), beVal ((m.drop 8).take 8), m.drop 16)), s1)

def drainVectorMessages3 : Nat → St → Option (List VMsg) × St
  | 0, s => (some [], s)
  | fuel + 1, s =>
    match getVectorMessage3 s none with
    | (none, s1) => (none, s1)
    | (some none, s1) => (some [], s1)
    | (some (some m), s1) =>
      match drainVectorMessages3 fuel s1 with
      | (none, s2) => (none, s2)
      | (some ms, s2) => (some (m :: ms), s2)

/-- `getAllVectorMessages3`: drain every complete vector message.  The
outer `none` propagates the short-frame exception, in which case the
Python list under construction is lost. -/
def getAllVectorMessages3 (s : St) (data : Option Bytes) :
    Option (List VMsg) × St :=
  match getVectorMessage3 s data with
  | (none, s1) => (none, s1)
  | (some none, s1) => (some [], s1)
  | (some (some m), s1) =>
    match drainVectorMessages3 (s1.inbuf.length + 1) s1 with
    | (none, s2) => (none, s2)
    | (some ms, s2) => (some (m :: ms), s2)

/-- The `for msg in self.getAllVectorMessages3(data)` body of
`handleVectorMessages4`: for each `(v, rv, m)` in arrival order, first
compare `rv` against the awaited `rvector` (recording the message as the
value to return, overwriting any earlier match), else store it when
`keepresult` has the key, else pop and invoke a callback, else fall
through (discard).  `ret` threads the current return candidate. -/
def processVectorMessages (rvector : Option Nat) (s : St) (ret : Option VMsg) :
    List VMsg → Option VMsg × St × List Ev
  | [] => (ret, s, [])
  | (v, rv, m) :: rest =>
    if some rv = rvector then
      let r := processVectorMessages rvector s (some (v, rv, m)) rest
      (r.1, r.2.1, .toCaller v rv m :: r.2.2)
    else if dictContains s.keepresult rv then
      let r := processVectorMessages rvector
        { s with keepresult := dictInsert s.keepresult rv (some (v, rv, m)) } ret rest
      (r.1, r.2.1, .stored v rv m :: r.2.2)
    else
      match dictLookup s.callback rv with
      | some cb =>
        let r := processVectorMessages rvector
          { s with callback := dictErase s.callback rv } ret rest
        (r.1, r.2.1, .fired cb v rv m :: r.2.2)
      | none =>
        let r := processVectorMessages rvector s ret rest
        (r.1, r.2.1, .discarded v rv m :: r.2.2)

/-- The destination the dispatch loop chooses for one message, read off
the branch conditions of `processVectorMessages` at state `s`. -/
def classify (rvector : Option Nat) (s : St) : VMsg → Ev
  | (v, rv, m) =>
    if some rv = rvector then .toCaller v rv m
    else if dictContains s.keepresult rv then .stored v rv m
    else
      match dictLookup s.callback rv with
      | some cb => .fired cb v rv m
      | none => .discarded v rv m

/-- Result of `handleVectorMessages4`: a matched message, `none` (the
source falls off the end, or blocks with nothing left in the script),
or a propagated exception. -/
inductive HRes where
  | ret (m : Option VMsg)
  | err
deriving DecidableEq

/-- The `while True` readiness loop of `handleVectorMessages4`.  One
iteration consumes the next script chunk as the `recv` data (nothing
when the script is empty), drains all complete vector messages,
dispatches them, and returns a matched message; with `block` it keeps
looping while the script has chunks left.  The source's
`self.send1(block = False)` on writability feeds no data and is a no-op
in the latency-simulation version. -/
def handleLoop : Nat → St → List Bytes → Option Nat → Bool → HRes × St × List Ev
  | 0, s, _, _, _ => (.ret none, s, [])
  | fuel + 1, s, input, rvector, block =>
    match getAllVectorMessages3 s input.head? with
    | (none, s1) => (.err, s1, [])
    | (some msgs, s1) =>
      let (ret, s2, evs) := processVectorMessages rvector s1 none msgs
      match ret with
      | some m => (.ret (some m), s2, evs)
      | none =>
        if block then
          match input with
          | [] => (.ret none, s2, evs)
          | _ :: input1 =>
            let (r, s3, evs2) := handleLoop fuel s2 input1 rvector block
            (r, s3, evs ++ evs2)
        else (.ret none, s2, evs)

/-- `handleVectorMessages4`: the fast path first — if the awaited
`rvector` already has a stored (non-`None`) result, delete the entry and
return it without touching the socket; otherwise enter the readiness
loop. -/
def handleVectorMessages4 (fuel : Nat) (s : St) (input : List Bytes)
    (rvector : Option Nat) (block : Bool) : HRes × St × List Ev :=
  match rvector with
  | some rv =>
    match dictLookup s.keepresult rv with
    | some (some m) =>
      (.ret (some m), { s with keepresult := dictErase s.keepresult rv }, [])
    | _ => handleLoop fuel s input rvector block
  | none => handleLoop fuel s input none block

/-- What `sendVectorMessageWithMode4` returns: the assigned vector
(modes Async, Callback, Discard) or the result of the blocking
retrieval (mode Block). -/
inductive SendResult where
  | vec (v : Nat)
  | reply (m : Option VMsg)
deriving DecidableEq

/-- Normal return versus a raised exception (state at the raise kept). -/
inductive Outcome where
  | ok (r : SendResult)
  | err
deriving DecidableEq

/-- `sendVectorMessageWithMode4`: read the counter as `vector`; for
Async/Block insert `keepresult[vector] = None` (for Callback insert the
callback) *before* sending; Discard just sends; an unknown mode or a
Callback send without a callback raises.  Block then enters
`handleVectorMessages4` awaiting `vector`. -/
def sendVectorMessageWithMode4 (fuel : Nat) (s : St) (input : List Bytes)
    (msg : Bytes) (rvector : Nat) (mode : Nat) (callback : Option Nat) :
    Outcome × St × List Ev :=
  let vector := s.vector
  if mode = IOMode.Async then
    let s1 := { s with keepresult := dictInsert s.keepresult vector none }
    match sendVectorMessage3 s1 msg rvector true with
    | none => (.err, s1, [.insertAwait vector])
    | some (v, s2, evs) => (.ok (.vec v), s2, .insertAwait vector :: evs)
  else if mode = IOMode.Callback then
    match callback with
    | none => (.err, s, [])
    | some cb =>
      let s1 := { s with callback := dictInsert s.callback vector cb }
      match sendVectorMessage3 s1 msg rvector true with
      | none => (.err, s1, [.insertCallback vector])
      | some (v, s2, evs) => (.ok (.vec v), s2, .insertCallback vector :: evs)
  else if mode = IOMode.Discard then
    match sendVectorMessage3 s msg rvector true with
    | none => (.err, s, [])
    | some (v, s2, evs) => (.ok (.vec v), s2, evs)
  else if mode ≠ IOMode.Block then (.err, s, [])
  else
    let s1 := { s with keepresult := dictInsert s.keepresult vector none }
    match sendVectorMessage3 s1 msg rvector false with
    | none => (.err, s1, [.insertAwait vector])
    | some (_, s2, evs) =>
      match handleVectorMessages4 fuel s2 input (some vector) true with
      | (.ret m, s3, evs2) =>
        (.ok (.reply m), s3, .insertAwait vector :: (evs ++ evs2))
      | (.err, s3, evs2) => (.err, s3, .insertAwait vector :: (evs ++ evs2))

/-- A sequence of `sendVectorMessage3` calls, collecting the returned
vectors; an exception stops the run. -/
def runSends (s : St) : List (Bytes × Nat) → List Nat × St
  | [] => ([], s)
  | (msg, rv) :: rest =>
    match sendVectorMessage3 s msg rv true with
    | none => ([], s)
    | some (v, s1, _) =>
      (v :: (runSends s1 rest).1, (runSends s1 rest).2)

/-- The outbound-size invariant: the counter equals the sum of the
lengths of the chunks in the outbound queue. -/
def goodOut (s : St) : Prop := s.oubufsz = (s.oubuf.map List.length).sum

/-- The frame `sendVectorMessage3` builds for a message sent while the
counter reads `vec`: layer-2 length prefix, the two 64-bit vectors, then
the user payload. -/
def vframe (vec rv : Nat) (msg : Bytes) : Bytes :=
  be 4 (16 + msg.length) ++ (be 8 vec ++ be 8 rv ++ msg)

theorem sendVectorMessage3_eq (s : St) (msg : Bytes) (rv : Nat) (b : Bool)
    (hv : s.vector < 2 ^ 64) (hrv : rv < 2 ^ 64)
    (hm : 16 + msg.length < 2 ^ 32) :
    sendVectorMessage3 s msg rv b =
      some (s.vector,
        { s with vector := s.vector + 1,
                 slow := s.slow ++ [vframe s.vector rv msg],
                 slowsz := s.slowsz + (vframe s.vector rv msg).length },
        [.commit (vframe s.vector rv msg)]) := by
  have hlen : (be 8 s.vector ++ be 8 rv ++ msg).length = 16 + msg.length := by
    simp [be_length]
    omega
  simp only [sendVectorMessage3, sendMessage2, send1, hlen, vframe]
  rw [if_pos ⟨hv, hrv⟩, if_pos (show 16 + msg.length < 2 ^ 32 from hm)]

theorem sendVectorMessage3_inv (s : St) (msg : Bytes) (rv : Nat) (b : Bool)
    (out : Nat × St × List Ev)
    (h : sendVectorMessage3 s msg rv b = some out) :
    s.vector < 2 ^ 64 ∧ rv < 2 ^ 64 ∧ 16 + msg.length < 2 ^ 32 := by
  unfold sendVectorMessage3 at h
  by_cases h1 : s.vector < 2 ^ 64 ∧ rv < 2 ^ 64
  · rw [if_pos h1] at h
    refine ⟨h1.1, h1.2, ?_⟩
    unfold sendMessage2 at h
    by_cases h2 : (be 8 s.vector ++ be 8 rv ++ msg).length < 2 ^ 32
    · have hlen : (be 8 s.vector ++ be 8 rv ++ msg).length = 16 + msg.length := by
        simp [be_length]
        omega
      omega
    · rw [if_neg h2] at h
      exact Option.noConfusion h
  · rw [if_neg h1] at h
    exact Option.noConfusion h

theorem dictContains_cons {α : Type} (j : Nat) (v : α) (d : Dict α) (k : Nat) :
    dictContains ((j, v) :: d) k = (decide (j = k) || dictContains d k) := by
  by_cases h : j = k <;> simp [dictContains, dictLookup, h]

theorem dictContains_insert_of_contains {α : Type} (d : Dict α) (k k' : Nat)
    (v : α) (h : dictContains d k = true) :
    dictContains (dictInsert d k v) k' = dictContains d k' := by
  rw [dictContains_insert]
  by_cases hk : k = k'
  · subst hk
    simp [h]
  · simp [hk]

theorem dictContains_erase_le {α : Type} (d : Dict α) (j k : Nat)
    (h : dictContains (dictErase d j) k = true) : dictContains d k = true := by
  induction d with
  | nil => simpa [dictErase] using h
  | cons p rest ih =>
    obtain ⟨pk, pv⟩ := p
    by_cases hp : pk = j
    · simp only [dictErase, if_pos hp] at h
      rw [dictContains_cons]
      simp [h]
    · simp only [dictErase, if_neg hp] at h
      rw [dictContains_cons] at h ⊢
      simp only [Bool.or_eq_true] at h ⊢
      rcases h with h1 | h1
      · exact Or.inl h1
      · exact Or.inr (ih h1)

/-- The dispatch loop never changes which keys `keepresult` holds: it
only overwrites values at keys that are already present. -/
theorem processVM_keepresult_contains (rvector : Option Nat) (s : St)
    (ret : Option VMsg) (msgs : List VMsg) (k : Nat) :
    dictContains (processVectorMessages rvector s ret msgs).2.1.keepresult k
      = dictContains s.keepresult k := by
  induction msgs generalizing s ret with
  | nil => rfl
  | cons hd tl ih =>
    obtain ⟨v, rv, m⟩ := hd
    by_cases h1 : some rv = rvector
    · simp only [processVectorMessages, if_pos h1]
      exact ih s (some (v, rv, m))
    · by_cases h2 : dictContains s.keepresult rv = true
      · simp only [processVectorMessages, if_neg h1, if_pos h2]
        rw [ih]
        exact dictContains_insert_of_contains s.keepresult rv k _ h2
      · cases hcb : dictLookup s.callback rv with
        | some cb =>
          simp only [processVectorMessages, if_neg h1, if_neg h2, hcb]
          exact ih _ ret
        | none =>
          simp only [processVectorMessages, if_neg h1, if_neg h2, hcb]
          exact ih s ret

/-- The dispatch loop never inserts callbacks, so a key present in the
final callback table was present initially. -/
theorem processVM_callback_mono (rvector : Option Nat) (s : St)
    (ret : Option VMsg) (msgs : List VMsg) (k : Nat)
    (h : dictContains (processVectorMessages rvector s ret msgs).2.1.callback k
          = true) :
    dictContains s.callback k = true := by
  induction msgs generalizing s ret with
  | nil => exact h
  | cons hd tl ih =>
    obtain ⟨v, rv, m⟩ := hd
    by_cases h1 : some rv = rvector
    · simp only [processVectorMessages, if_pos h1] at h
      exact ih s (some (v, rv, m)) h
    · by_cases h2 : dictContains s.keepresult rv = true
      · simp only [processVectorMessages, if_neg h1, if_pos h2] at h
        exact ih { s with keepresult := dictInsert s.keepresult rv (some (v, rv, m)) } ret h
      · cases hcb : dictLookup s.callback rv with
        | some cb =>
          simp only [processVectorMessages, if_neg h1, if_neg h2, hcb] at h
          exact dictContains_erase_le s.callback rv k
            (ih { s with callback := dictErase s.callback rv } ret h)
        | none =>
          simp only [processVectorMessages, if_neg h1, if_neg h2, hcb] at h
          exact ih s ret h

/-- If no drained message carries the awaited `rvector`, the return
candidate survives the whole batch. -/
theorem processVM_ret_frozen (rvector : Option Nat) (s : St) (ret : Option VMsg)
    (msgs : List VMsg) (h : ∀ m ∈ msgs, some m.2.1 ≠ rvector) :
    (processVectorMessages rvector s ret msgs).1 = ret := by
  induction msgs generalizing s ret with
  | nil => rfl
  | cons hd tl ih =>
    obtain ⟨v, rv, m⟩ := hd
    have hhd : some rv ≠ rvector := h (v, rv, m) (List.mem_cons_self _ _)
    have htl : ∀ m' ∈ tl, some m'.2.1 ≠ rvector :=
      fun m' hm' => h m' (List.mem_cons_of_mem _ hm')
    by_cases h2 : dictContains s.keepresult rv = true
    · simp only [processVectorMessages, if_neg hhd, if_pos h2]
      exact ih _ ret htl
    · cases hcb : dictLookup s.callback rv with
      | some cb =>
        simp only [processVectorMessages, if_neg hhd, if_neg h2, hcb]
        exact ih _ ret htl
      | none =>
        simp only [processVectorMessages, if_neg hhd, if_neg h2, hcb]
        exact ih s ret htl

/-- Keys not named by any message in the batch keep their `keepresult`
binding unchanged through the dispatch loop. -/
theorem processVM_keepresult_lookup_frozen (rvector : Option Nat) (s : St)
    (ret : Option VMsg) (msgs : List VMsg) (k : Nat)
    (h : ∀ m ∈ msgs, m.2.1 ≠ k) :
    dictLookup (processVectorMessages rvector s ret msgs).2.1.keepresult k
      = dictLookup s.keepresult k := by
  induction msgs generalizing s ret with
  | nil => rfl
  | cons hd tl ih =>
    obtain ⟨v, rv, m⟩ := hd
    have hhd : rv ≠ k := h (v, rv, m) (List.mem_cons_self _ _)
    have htl : ∀ m' ∈ tl, m'.2.1 ≠ k :=
      fun m' hm' => h m' (List.mem_cons_of_mem _ hm')
    by_cases h1 : some rv = rvector
    · simp only [processVectorMessages, if_pos h1]
      exact ih s (some (v, rv, m)) htl
    · by_cases h2 : dictContains s.keepresult rv = true
      · simp only [processVectorMessages, if_neg h1, if_pos h2]
        rw [ih _ ret htl]
        exact dictLookup_insert_ne s.keepresult rv k _ hhd
      · cases hcb : dictLookup s.callback rv with
        | some cb =>
          simp only [processVectorMessages, if_neg h1, if_neg h2, hcb]
          exact ih _ ret htl
        | none =>
          simp only [processVectorMessages, if_neg h1, if_neg h2, hcb]
          exact ih s ret htl

theorem processVM_callback_nodup (rvector : Option Nat) (s : St)
    (ret : Option VMsg) (msgs : List VMsg)
    (hnd : (s.callback.map Prod.fst).Nodup) :
    ((processVectorMessages rvector s ret msgs).2.1.callback.map Prod.fst).Nodup := by
  induction msgs generalizing s ret with
  | nil => exact hnd
  | cons hd tl ih =>
    obtain ⟨v, rv, m⟩ := hd
    by_cases h1 : some rv = rvector
    · simp only [processVectorMessages, if_pos h1]
      exact ih s (some (v, rv, m)) hnd
    · by_cases h2 : dictContains s.keepresult rv = true
      · simp only [processVectorMessages, if_neg h1, if_pos h2]
        exact ih _ ret hnd
      · cases hcb : dictLookup s.callback rv with
        | some cb =>
          simp only [processVectorMessages, if_neg h1, if_neg h2, hcb]
          exact ih _ ret (dictErase_keys_nodup s.callback rv hnd)
        | none =>
          simp only [processVectorMessages, if_neg h1, if_neg h2, hcb]
          exact ih s ret hnd

/-- `classify` only looks at the two tables, at the key of the message
itself; states agreeing there classify alike. -/
theorem classify_congr (rvector : Option Nat) (s' s : St) (tl : List VMsg)
    (hk : ∀ m ∈ tl, dictContains s'.keepresult m.2.1 = dictContains s.keepresult m.2.1)
    (hc : ∀ m ∈ tl, dictLookup s'.callback m.2.1 = dictLookup s.callback m.2.1) :
    tl.map (classify rvector s') = tl.map (classify rvector s) := by
  apply List.map_congr_left
  intro m hm
  obtain ⟨v, rv, p⟩ := m
  have h1 := hk (v, rv, p) hm
  have h2 := hc (v, rv, p) hm
  simp only [classify, h1, h2]

/-- With pairwise-distinct reply vectors in the batch, the dispatch loop
emits, in order, exactly the per-message classification determined by
the tables as they stood when the batch began. -/
theorem processVM_events (rvector : Option Nat) (s : St) (ret : Option VMsg)
    (msgs : List VMsg)
    (hdis : msgs.Pairwise (fun a b => a.2.1 ≠ b.2.1)) :
    (processVectorMessages rvector s ret msgs).2.2
      = msgs.map (classify rvector s) := by
  induction msgs generalizing s ret with
  | nil => rfl
  | cons hd tl ih =>
    obtain ⟨v, rv, m⟩ := hd
    rw [List.pairwise_cons] at hdis
    obtain ⟨hhd, htl⟩ := hdis
    by_cases h1 : some rv = rvector
    · simp only [processVectorMessages, if_pos h1, List.map_cons, classify]
      rw [ih s (some (v, rv, m)) htl]
    · by_cases h2 : dictContains s.keepresult rv = true
      · simp only [processVectorMessages, if_neg h1, if_pos h2, List.map_cons, classify]
        rw [ih _ ret htl]
        refine congrArg _ (classify_congr rvector _ s tl ?_ fun m' hm' => rfl)
        intro m' hm'
        exact dictContains_insert_of_contains s.keepresult rv m'.2.1 _ h2
      · cases hcb : dictLookup s.callback rv with
        | some cb =>
          simp only [processVectorMessages, if_neg h1, if_neg h2, hcb, List.map_cons,
            classify]
          rw [ih _ ret htl]
          refine congrArg _ (classify_congr rvector _ s tl (fun m' hm' => rfl) ?_)
          intro m' hm'
          exact dictLookup_erase_ne s.callback rv m'.2.1 (hhd m' hm')
        | none =>
          simp only [processVectorMessages, if_neg h1, if_neg h2, hcb, List.map_cons,
            classify]
          rw [ih s ret htl]

/-- With pairwise-distinct reply vectors, the message matching the
awaited vector is the one the batch returns. -/
theorem processVM_ret_match (rvector : Option Nat) (s : St) (ret : Option VMsg)
    (msgs : List VMsg)
    (hdis : msgs.Pairwise (fun a b => a.2.1 ≠ b.2.1)) :
    ∀ m ∈ msgs, some m.2.1 = rvector →
      (processVectorMessages rvector s ret msgs).1 = some m := by
  induction msgs generalizing s ret with
  | nil =>
    intro m hm
    exact absurd hm (List.not_mem_nil m)
  | cons hd tl ih =>
    intro m hm hmatch
    obtain ⟨v, rv, mm⟩ := hd
    rw [List.pairwise_cons] at hdis
    obtain ⟨hhd, htl⟩ := hdis
    rcases List.mem_cons.mp hm with hm1 | hm2
    · subst hm1
      simp only [processVectorMessages, if_pos hmatch]
      apply processVM_ret_frozen
      intro m' hm' he
      exact hhd m' hm' (by
        rw [← hmatch] at he
        exact (Option.some.inj he).symm)
    · have hne : some rv ≠ rvector := by
        intro he
        have : m.2.1 = rv := Option.some.inj (hmatch.trans he.symm)
        exact hhd m hm2 this.symm
      by_cases h2 : dictContains s.keepresult rv = true
      · simp only [processVectorMessages, if_neg hne, if_pos h2]
        exact ih _ ret htl m hm2 hmatch
      · cases hcb : dictLookup s.callback rv with
        | some cb =>
          simp only [processVectorMessages, if_neg hne, if_neg h2, hcb]
          exact ih _ ret htl m hm2 hmatch
        | none =>
          simp only [processVectorMessages, if_neg hne, if_neg h2, hcb]
          exact ih s ret htl m hm2 hmatch

/-- With pairwise-distinct reply vectors, a non-matching message whose
key is in `keepresult` ends up stored in the final table under its key. -/
theorem processVM_stored (rvector : Option Nat) (s : St) (ret : Option VMsg)
    (msgs : List VMsg)
    (hdis : msgs.Pairwise (fun a b => a.2.1 ≠ b.2.1)) :
    ∀ m ∈ msgs, some m.2.1 ≠ rvector → dictContains s.keepresult m.2.1 = true →
      dictLookup (processVectorMessages rvector s ret msgs).2.1.keepresult m.2.1
        = some (some m) := by
  induction msgs generalizing s ret with
  | nil =>
    intro m hm
    exact absurd hm (List.not_mem_nil m)
  | cons hd tl ih =>
    intro m hm hne hin
    obtain ⟨v, rv, mm⟩ := hd
    rw [List.pairwise_cons] at hdis
    obtain ⟨hhd, htl⟩ := hdis
    rcases List.mem_cons.mp hm with hm1 | hm2
    · subst hm1
      simp only [processVectorMessages, if_neg hne, if_pos hin]
      rw [processVM_keepresult_lookup_frozen rvector _ ret tl rv
        (fun m' hm' => fun he => hhd m' hm' he.symm)]
      exact dictLookup_insert_self s.keepresult rv (some (v, rv, mm))
    · by_cases h1 : some rv = rvector
      · simp only [processVectorMessages, if_pos h1]
        exact ih s (some (v, rv, mm)) htl m hm2 hne hin
      · by_cases h2 : dictContains s.keepresult rv = true
        · simp only [processVectorMessages, if_neg h1, if_pos h2]
          refine ih _ ret htl m hm2 hne ?_
          rw [dictContains_insert_of_contains s.keepresult rv m.2.1 _ h2]
          exact hin
        · cases hcb : dictLookup s.callback rv with
          | some cb =>
            simp only [processVectorMessages, if_neg h1, if_neg h2, hcb]
            exact ih _ ret htl m hm2 hne hin
          | none =>
            simp only [processVectorMessages, if_neg h1, if_neg h2, hcb]
            exact ih s ret htl m hm2 hne hin

/-- With pairwise-distinct reply vectors and a well-formed callback
table, a message that neither matches the awaited vector nor has a
`keepresult` key leaves no callback entry behind under its key: a fired
callback is removed, and a discarded message never had one. -/
theorem processVM_callback_gone (rvector : Option Nat) (s : St) (ret : Option VMsg)
    (msgs : List VMsg)
    (hdis : msgs.Pairwise (fun a b => a.2.1 ≠ b.2.1))
    (hnd : (s.callback.map Prod.fst).Nodup) :
    ∀ m ∈ msgs, some m.2.1 ≠ rvector → dictContains s.keepresult m.2.1 = false →
      dictContains (processVectorMessages rvector s ret msgs).2.1.callback m.2.1
        = false := by
  induction msgs generalizing s ret with
  | nil =>
    intro m hm
    exact absurd hm (List.not_mem_nil m)
  | cons hd tl ih =>
    intro m hm hne hnin
    obtain ⟨v, rv, mm⟩ := hd
    rw [List.pairwise_cons] at hdis
    obtain ⟨hhd, htl⟩ := hdis
    rcases List.mem_cons.mp hm with hm1 | hm2
    · subst hm1
      have hnin' : ¬ dictContains s.keepresult rv = true := by
        rw [hnin]
        exact Bool.false_ne_true
      cases hcb : dictLookup s.callback rv with
      | some cb =>
        simp only [processVectorMessages, if_neg hne, if_neg hnin', hcb]
        cases hres : dictContains
            (processVectorMessages rvector
              { s with callback := dictErase s.callback rv } ret tl).2.1.callback rv with
        | false => rfl
        | true =>
          have := processVM_callback_mono rvector _ ret tl rv hres
          rw [show ({ s with callback := dictErase s.callback rv } : St).callback
              = dictErase s.callback rv from rfl] at this
          rw [dictContains_erase_self s.callback rv hnd] at this
          exact absurd this Bool.false_ne_true
      | none =>
        simp only [processVectorMessages, if_neg hne, if_neg hnin', hcb]
        cases hres : dictContains
            (processVectorMessages rvector s ret tl).2.1.callback rv with
        | false => rfl
        | true =>
          have := processVM_callback_mono rvector s ret tl rv hres
          rw [show dictContains s.callback rv = false by
            simp [dictContains, hcb]] at this
          exact absurd this Bool.false_ne_true
    · by_cases h1 : some rv = rvector
      · simp only [processVectorMessages, if_pos h1]
        exact ih s (some (v, rv, mm)) htl hnd m hm2 hne hnin
      · by_cases h2 : dictContains s.keepresult rv = true
        · simp only [processVectorMessages, if_neg h1, if_pos h2]
          refine ih { s with keepresult := dictInsert s.keepresult rv (some (v, rv, mm)) }
            ret htl hnd m hm2 hne ?_
          rw [dictContains_insert_of_contains s.keepresult rv m.2.1 _ h2]
          exact hnin
        · cases hcb : dictLookup s.callback rv with
          | some cb =>
            simp only [processVectorMessages, if_neg h1, if_neg h2, hcb]
            exact ih { s with callback := dictErase s.callback rv } ret htl
              (dictErase_keys_nodup s.callback rv hnd) m hm2 hne hnin
          | none =>
            simp only [processVectorMessages, if_neg h1, if_neg h2, hcb]
            exact ih s ret htl hnd m hm2 hne hnin

/-- Every successful `sendVectorMessage3` returns the pre-increment
counter, bumps the counter by one, and commits exactly the frame built
from that returned counter value. -/
theorem sendVectorMessage3_char (s : St) (msg : Bytes) (rv : Nat) (b : Bool)
    (v : Nat) (s1 : St) (evs : List Ev)
    (h : sendVectorMessage3 s msg rv b = some (v, s1, evs)) :
    v = s.vector ∧ s1.vector = s.vector + 1 ∧
      evs = [.commit (vframe s.vector rv msg)] := by
  obtain ⟨hv, hrv, hm⟩ := sendVectorMessage3_inv s msg rv b _ h
  rw [sendVectorMessage3_eq s msg rv b hv hrv hm] at h
  simp only [Option.some.injEq, Prod.mk.injEq] at h
  obtain ⟨h1, h2, h3⟩ := h
  refine ⟨h1.symm, ?_, h3.symm⟩
  rw [← h2]

/-- `runSends` returns an initial segment of the naturals starting at
the initial counter value. -/
theorem runSends_range (sends : List (Bytes × Nat)) (s : St) :
    ∃ k, (runSends s sends).1 = List.range' s.vector k := by
  induction sends generalizing s with
  | nil => exact ⟨0, rfl⟩
  | cons p rest ih =>
    obtain ⟨msg, rv⟩ := p
    cases hsnd : sendVectorMessage3 s msg rv true with
    | none =>
      refine ⟨0, ?_⟩
      simp only [runSends, hsnd]
      rfl
    | some out =>
      obtain ⟨v, s1, evs⟩ := out
      obtain ⟨hv, hvec, _⟩ := sendVectorMessage3_char s msg rv true v s1 evs hsnd
      obtain ⟨k, hk⟩ := ih s1
      refine ⟨k + 1, ?_⟩
      simp only [runSends, hsnd]
      rw [hk, hvec, List.range'_succ, hv]

theorem sendVectorMessage3_tables (s : St) (msg : Bytes) (rv : Nat) (b : Bool)
    (v : Nat) (s1 : St) (evs : List Ev)
    (h : sendVectorMessage3 s msg rv b = some (v, s1, evs)) :
    s1.keepresult = s.keepresult ∧ s1.callback = s.callback := by
  obtain ⟨hv, hrv, hm⟩ := sendVectorMessage3_inv s msg rv b _ h
  rw [sendVectorMessage3_eq s msg rv b hv hrv hm] at h
  simp only [Option.some.injEq, Prod.mk.injEq] at h
  obtain ⟨h1, h2, h3⟩ := h
  rw [← h2]
  exact ⟨rfl, rfl⟩

/-- Full description of an Async-mode send: entry first, frame second. -/
theorem sendVM4_async_eq (fuel : Nat) (s : St) (input : List Bytes) (msg : Bytes)
    (rvector : Nat) (cbopt : Option Nat)
    (hv : s.vector < 2 ^ 64) (hrv : rvector < 2 ^ 64)
    (hm : 16 + msg.length < 2 ^ 32) :
    sendVectorMessageWithMode4 fuel s input msg rvector IOMode.Async cbopt =
      (.ok (.vec s.vector),
       { s with keepresult := dictInsert s.keepresult s.vector none,
                vector := s.vector + 1,
                slow := s.slow ++ [vframe s.vector rvector msg],
                slowsz := s.slowsz + (vframe s.vector rvector msg).length },
       [.insertAwait s.vector, .commit (vframe s.vector rvector msg)]) := by
  have hsend := sendVectorMessage3_eq
    { s with keepresult := dictInsert s.keepresult s.vector none } msg rvector true
    hv hrv hm
  simp only [sendVectorMessageWithMode4, hsend]
  rfl

/-- Full description of a Callback-mode send: entry first, frame second. -/
theorem sendVM4_callback_eq (fuel : Nat) (s : St) (input : List Bytes) (msg : Bytes)
    (rvector : Nat) (cb : Nat)
    (hv : s.vector < 2 ^ 64) (hrv : rvector < 2 ^ 64)
    (hm : 16 + msg.length < 2 ^ 32) :
    sendVectorMessageWithMode4 fuel s input msg rvector IOMode.Callback (some cb) =
      (.ok (.vec s.vector),
       { s with callback := dictInsert s.callback s.vector cb,
                vector := s.vector + 1,
                slow := s.slow ++ [vframe s.vector rvector msg],
                slowsz := s.slowsz + (vframe s.vector rvector msg).length },
       [.insertCallback s.vector, .commit (vframe s.vector rvector msg)]) := by
  have hsend := sendVectorMessage3_eq
    { s with callback := dictInsert s.callback s.vector cb } msg rvector true
    hv hrv hm
  simp only [sendVectorMessageWithMode4, hsend]
  rfl

/-- Full description of a Discard-mode send: no entry, just the frame. -/
theorem sendVM4_discard_eq (fuel : Nat) (s : St) (input : List Bytes) (msg : Bytes)
    (rvector : Nat) (cbopt : Option Nat)
    (hv : s.vector < 2 ^ 64) (hrv : rvector < 2 ^ 64)
    (hm : 16 + msg.length < 2 ^ 32) :
    sendVectorMessageWithMode4 fuel s input msg rvector IOMode.Discard cbopt =
      (.ok (.vec s.vector),
       { s with vector := s.vector + 1,
                slow := s.slow ++ [vframe s.vector rvector msg],
                slowsz := s.slowsz + (vframe s.vector rvector msg).length },
       [.commit (vframe s.vector rvector msg)]) := by
  have hsend := sendVectorMessage3_eq s msg rvector true hv hrv hm
  simp only [sendVectorMessageWithMode4, hsend]
  rfl

/-- A Block-mode send: entry, then the frame, then whatever the blocking
retrieval produces. -/
theorem sendVM4_block_eq (fuel : Nat) (s : St) (input : List Bytes) (msg : Bytes)
    (rvector : Nat) (cbopt : Option Nat)
    (hv : s.vector < 2 ^ 64) (hrv : rvector < 2 ^ 64)
    (hm : 16 + msg.length < 2 ^ 32) :
    sendVectorMessageWithMode4 fuel s input msg rvector IOMode.Block cbopt =
      (match handleVectorMessages4 fuel
          { s with keepresult := dictInsert s.keepresult s.vector none,
                   vector := s.vector + 1,
                   slow := s.slow ++ [vframe s.vector rvector msg],
                   slowsz := s.slowsz + (vframe s.vector rvector msg).length }
          input (some s.vector) true with
       | (.ret m, s3, evs2) =>
         (.ok (.reply m), s3,
          .insertAwait s.vector :: .commit (vframe s.vector rvector msg) :: evs2)
       | (.err, s3, evs2) =>
         (.err, s3,
          .insertAwait s.vector :: .commit (vframe s.vector rvector msg) :: evs2)) := by
  have hsend := sendVectorMessage3_eq
    { s with keepresult := dictInsert s.keepresult s.vector none } msg rvector false
    hv hrv hm
  simp only [sendVectorMessageWithMode4, hsend]
  rcases hh : handleVectorMessages4 fuel
      { s with keepresult := dictInsert s.keepresult s.vector none,
               vector := s.vector + 1,
               slow := s.slow ++ [vframe s.vector rvector msg],
               slowsz := s.slowsz + (vframe s.vector rvector msg).length }
      input (some s.vector) true with ⟨r, s3, evs2⟩
  cases r with
  | ret m =>
    simp only [hh]
    rfl
  | err =>
    simp only [hh]
    rfl

/-- Example state for exercising one dispatch cycle: an awaited entry
for vector 6 and a registered callback (id 42) for vector 7. -/
def dispatchExampleState : St :=
  { initSocketBase with keepresult := [(6, none)], callback := [(7, 42)] }

/-- Example batch: one message for the await path, one for the stored
path, one for the callback path, one for the discard path. -/
def dispatchExampleBatch : List VMsg :=
  [(1, 5, [10]), (2, 6, [11]), (3, 7, [12]), (4, 8, [13])]

/-- C1 counterexample: when two messages of one drained batch both carry
the awaited rvector 5, the dispatch loop of `handleVectorMessages4`
records the second over the first; the first message ends up neither
returned, nor stored, nor dispatched to a callback, nor sent down the
discard path — it is silently lost, contradicting the claim that every
message is delivered to exactly one destination. -/
theorem C1_counterexample :
    (processVectorMessages (some 5) initSocketBase none
        [(1, 5, [10]), (2, 5, [11])]).1 = some (2, 5, [11]) ∧
    (processVectorMessages (some 5) initSocketBase none
        [(1, 5, [10]), (2, 5, [11])]).2.1 = initSocketBase ∧
    (processVectorMessages (some 5) initSocketBase none
        [(1, 5, [10]), (2, 5, [11])]).2.2
      = [Ev.toCaller 1 5 [10], Ev.toCaller 2 5 [11]] ∧
    (processVectorMessages (some 5) initSocketBase none
        [(1, 5, [10]), (2, 5, [11])]).1 ≠ some (1, 5, [10]) := by
  decide

/-- C1 (amended): in one dispatch cycle of `handleVectorMessages4`,
provided the drained messages carry pairwise-distinct rvectors (and the
callback table keys are unique, as Python dict keys are), each message
is delivered to exactly one destination chosen by the state of its
rvector: the events are exactly the per-message classification, the
message matching the awaited vector is the one returned, a message
whose rvector has an awaited entry is stored there, and a message with
neither ends with no callback entry under its rvector (fired ones are
removed, discarded ones never had one).  Without the distinctness
hypothesis a later message overwrites an earlier one (see the
counterexample). -/
theorem C1_amended_dispatch (rvector : Option Nat) (s : St) (msgs : List VMsg)
    (hdis : msgs.Pairwise (fun a b => a.2.1 ≠ b.2.1))
    (hnd : (s.callback.map Prod.fst).Nodup) :
    (processVectorMessages rvector s none msgs).2.2
      = msgs.map (classify rvector s) ∧
    (∀ m ∈ msgs, some m.2.1 = rvector →
      (processVectorMessages rvector s none msgs).1 = some m) ∧
    (∀ m ∈ msgs, some m.2.1 ≠ rvector → dictContains s.keepresult m.2.1 = true →
      dictLookup (processVectorMessages rvector s none msgs).2.1.keepresult m.2.1
        = some (some m)) ∧
    (∀ m ∈ msgs, some m.2.1 ≠ rvector → dictContains s.keepresult m.2.1 = false →
      dictContains (processVectorMessages rvector s none msgs).2.1.callback m.2.1
        = false) :=
  ⟨processVM_events rvector s none msgs hdis,
   processVM_ret_match rvector s none msgs hdis,
   processVM_stored rvector s none msgs hdis,
   processVM_callback_gone rvector s none msgs hdis hnd⟩

/-- Witness for C1 (amended) on a concrete four-message batch hitting
all four destinations. -/
theorem C1_witness :
    (processVectorMessages (some 5) dispatchExampleState none
        dispatchExampleBatch).2.2
      = dispatchExampleBatch.map (classify (some 5) dispatchExampleState) ∧
    (processVectorMessages (some 5) dispatchExampleState none
        dispatchExampleBatch).1 = some (1, 5, [10]) ∧
    dictLookup (processVectorMessages (some 5) dispatchExampleState none
        dispatchExampleBatch).2.1.keepresult 6 = some (some (2, 6, [11])) ∧
    dictContains (processVectorMessages (some 5) dispatchExampleState none
        dispatchExampleBatch).2.1.callback 7 = false := by
  obtain ⟨h1, h2, h3, h4⟩ := C1_amended_dispatch (some 5) dispatchExampleState
    dispatchExampleBatch (by decide) (by decide)
  exact ⟨h1, h2 (1, 5, [10]) (by decide) rfl,
    h3 (2, 6, [11]) (by decide) (by decide) (by decide),
    h4 (3, 7, [12]) (by decide) (by decide) (by decide)⟩

/-- C2: for modes Block, Async and Callback, the correlation entry —
keyed by the assigned vector, the very value carried in the frame's
vector field — is inserted strictly before the frame is committed to
the outbound path: the event trace is the insertion event followed by
the commit of the frame, and (for the non-blocking modes) the entry is
still present when the call returns, so a reply arriving before the
next service call is classified by it rather than discarded. -/
theorem C2_insert_before_commit (fuel : Nat) (s : St) (input : List Bytes)
    (msg : Bytes) (rvector : Nat) (cb : Nat)
    (hv : s.vector < 2 ^ 64) (hrv : rvector < 2 ^ 64)
    (hm : 16 + msg.length < 2 ^ 32) :
    ((vframe s.vector rvector msg).drop 4).take 8 = be 8 s.vector ∧
    (sendVectorMessageWithMode4 fuel s input msg rvector IOMode.Async (some cb)).2.2
      = [.insertAwait s.vector, .commit (vframe s.vector rvector msg)] ∧
    dictLookup (sendVectorMessageWithMode4 fuel s input msg rvector IOMode.Async
        (some cb)).2.1.keepresult s.vector = some none ∧
    (sendVectorMessageWithMode4 fuel s input msg rvector IOMode.Callback
        (some cb)).2.2
      = [.insertCallback s.vector, .commit (vframe s.vector rvector msg)] ∧
    dictLookup (sendVectorMessageWithMode4 fuel s input msg rvector IOMode.Callback
        (some cb)).2.1.callback s.vector = some cb ∧
    ∃ rest, (sendVectorMessageWithMode4 fuel s input msg rvector IOMode.Block
        (some cb)).2.2
      = .insertAwait s.vector :: .commit (vframe s.vector rvector msg) :: rest := by
  refine ⟨?_, ?_, ?_, ?_, ?_, ?_⟩
  · rw [vframe, List.drop_left' (be_length 4 (16 + msg.length))]
    rw [List.take_append_of_le_length
      (by rw [List.length_append, be_length, be_length]; omega)]
    rw [List.take_append_of_le_length (by simp [be_length])]
    exact List.take_of_length_le (by simp [be_length])
  · rw [sendVM4_async_eq fuel s input msg rvector (some cb) hv hrv hm]
  · rw [sendVM4_async_eq fuel s input msg rvector (some cb) hv hrv hm]
    exact dictLookup_insert_self s.keepresult s.vector none
  · rw [sendVM4_callback_eq fuel s input msg rvector cb hv hrv hm]
  · rw [sendVM4_callback_eq fuel s input msg rvector cb hv hrv hm]
    exact dictLookup_insert_self s.callback s.vector cb
  · rw [sendVM4_block_eq fuel s input msg rvector (some cb) hv hrv hm]
    rcases handleVectorMessages4 fuel
        { s with keepresult := dictInsert s.keepresult s.vector none,
                 vector := s.vector + 1,
                 slow := s.slow ++ [vframe s.vector rvector msg],
                 slowsz := s.slowsz + (vframe s.vector rvector msg).length }
        input (some s.vector) true with ⟨r, s3, evs2⟩
    cases r with
    | ret m => exact ⟨evs2, rfl⟩
    | err => exact ⟨evs2, rfl⟩

/-- Witness for C2 at a concrete Async-mode send. -/
theorem C2_witness :
    (sendVectorMessageWithMode4 0 initSocketBase [] [7] 3 IOMode.Async
        (some 1)).2.2
      = [.insertAwait initSocketBase.vector,
         .commit (vframe initSocketBase.vector 3 [7])] ∧
    dictLookup (sendVectorMessageWithMode4 0 initSocketBase [] [7] 3 IOMode.Async
        (some 1)).2.1.keepresult initSocketBase.vector = some none := by
  have h := C2_insert_before_commit 0 initSocketBase [] [7] 3 1
    (by decide) (by decide) (by decide)
  exact ⟨h.2.1, h.2.2.1⟩

/-- C3: across any sequence of completed sends on one endpoint the
returned vectors are strictly increasing, and each individual
successful send returns the pre-increment counter, bumps the counter by
exactly one, and commits a frame carrying that same returned vector. -/
theorem C3_vectors_strictly_increase (s : St) (sends : List (Bytes × Nat))
    (msg : Bytes) (rvector : Nat) (b : Bool) (v : Nat) (s1 : St) (evs : List Ev)
    (h : sendVectorMessage3 s msg rvector b = some (v, s1, evs)) :
    List.Pairwise (· < ·) (runSends s sends).1 ∧
    v = s.vector ∧ s1.vector = s.vector + 1 ∧
    evs = [.commit (vframe s.vector rvector msg)] := by
  obtain ⟨k, hk⟩ := runSends_range sends s
  refine ⟨?_, sendVectorMessage3_char s msg rvector b v s1 evs h⟩
  rw [hk]
  exact List.pairwise_lt_range' s.vector k

/-- Witness for C3 on two sends from a fresh endpoint, the first send
characterized concretely. -/
theorem C3_witness :
    List.Pairwise (· < ·) (runSends initSocketBase [([1], 0), ([2], 0)]).1 ∧
    0 = initSocketBase.vector ∧
    ({ initSocketBase with
        vector := 1, slow := [vframe 0 0 [1]], slowsz := 21 } : St).vector
      = initSocketBase.vector + 1 ∧
    ([Ev.commit (vframe 0 0 [1])] : List Ev)
      = [Ev.commit (vframe initSocketBase.vector 0 [1])] :=
  C3_vectors_strictly_increase initSocketBase [([1], 0), ([2], 0)] [1] 0 true 0
    { initSocketBase with vector := 1, slow := [vframe 0 0 [1]], slowsz := 21 }
    [Ev.commit (vframe 0 0 [1])] (by decide)

/-- C4: evaluation at the failing input.  `getMessage2` compares the
buffered byte count with `>` rather than `≥`, so after feeding exactly
the 4 header bytes of a zero-length frame the length is not parsed and
no message is emitted — the bytes just sit in the buffer — although the
claim (and the specified `≥` behavior) requires the empty payload to be
emitted.  The frame is emitted only once a fifth byte arrives. -/
theorem C4_header_boundary_bug :
    (getMessage2 initSocketBase (some [0, 0, 0, 0])).1 = none ∧
    (getMessage2 initSocketBase (some [0, 0, 0, 0])).2
      = { initSocketBase with inbuf := [0, 0, 0, 0] } ∧
    (getAllMessages2 initSocketBase (some [0, 0, 0, 0])).1 = [] ∧
    (getAllMessages2 initSocketBase (some ([0, 0, 0, 0] ++ [9]))).1 = [[]] := by
  decide

/-- C5 counterexample: a Block-mode send whose reply arrives in the
sender's own dispatch cycle returns the reply, yet the correlation
entry keyed by the assigned vector 0 is still in the table afterwards —
only the stored-slot fast path deletes entries, and the direct-receive
path bypasses it. -/
theorem C5_counterexample :
    (sendVectorMessageWithMode4 3 initSocketBase [vframe 9 0 [66]] [65] 0
        IOMode.Block none).1 = .ok (.reply (some (9, 0, [66]))) ∧
    dictContains (sendVectorMessageWithMode4 3 initSocketBase [vframe 9 0 [66]]
        [65] 0 IOMode.Block none).2.1.keepresult 0 = true ∧
    dictLookup (sendVectorMessageWithMode4 3 initSocketBase [vframe 9 0 [66]]
        [65] 0 IOMode.Block none).2.1.keepresult 0 = some none := by
  decide

/-- C5 (amended): the correlation entry is removed exactly when the
reply is collected through the stored-slot fast path — an entry already
holding a stored reply is deleted and its message returned without
touching the socket.  When the blocking retrieval instead receives the
reply directly in its own dispatch cycle, the (still empty) entry keyed
by the awaited vector remains in the table (see the counterexample). -/
theorem C5_amended_fast_path (fuel : Nat) (s : St) (input : List Bytes)
    (rv : Nat) (m : VMsg)
    (h : dictLookup s.keepresult rv = some (some m)) :
    handleVectorMessages4 fuel s input (some rv) true
      = (.ret (some m), { s with keepresult := dictErase s.keepresult rv }, []) := by
  simp only [handleVectorMessages4, h]

/-- Witness for C5 (amended) at a concrete stored entry. -/
theorem C5_witness :
    handleVectorMessages4 2
        { initSocketBase with keepresult := [(4, some (9, 4, [66]))] } []
        (some 4) true
      = (.ret (some (9, 4, [66])), initSocketBase, []) := by
  have h := C5_amended_fast_path 2
    { initSocketBase with keepresult := [(4, some (9, 4, [66]))] } [] 4
    (9, 4, [66]) (by decide)
  rw [h]
  decide

/-- C6 counterexample: a Block-mode send does not return the assigned
vector (here 0): `sendVectorMessageWithMode4` returns the value of
`handleVectorMessages4`, the reply triple. -/
theorem C6_counterexample :
    (sendVectorMessageWithMode4 3 initSocketBase [vframe 9 0 [66]] [65] 0
        IOMode.Block none).1 = .ok (.reply (some (9, 0, [66]))) ∧
    (sendVectorMessageWithMode4 3 initSocketBase [vframe 9 0 [66]] [65] 0
        IOMode.Block none).1 ≠ .ok (.vec 0) := by
  decide

/-- C6 (amended): for modes Async, Callback (with a callback) and
Discard, `sendVectorMessageWithMode4` returns the vector assigned to
the outbound message; for mode Block it instead returns the outcome of
the blocking retrieval — a reply triple (or an error), never the
vector. -/
theorem C6_amended_returns (fuel : Nat) (s : St) (input : List Bytes)
    (msg : Bytes) (rvector : Nat) (cb : Nat)
    (hv : s.vector < 2 ^ 64) (hrv : rvector < 2 ^ 64)
    (hm : 16 + msg.length < 2 ^ 32) :
    (sendVectorMessageWithMode4 fuel s input msg rvector IOMode.Async
        (some cb)).1 = .ok (.vec s.vector) ∧
    (sendVectorMessageWithMode4 fuel s input msg rvector IOMode.Callback
        (some cb)).1 = .ok (.vec s.vector) ∧
    (sendVectorMessageWithMode4 fuel s input msg rvector IOMode.Discard
        (some cb)).1 = .ok (.vec s.vector) ∧
    ((∃ m, (sendVectorMessageWithMode4 fuel s input msg rvector IOMode.Block
        (some cb)).1 = .ok (.reply m)) ∨
      (sendVectorMessageWithMode4 fuel s input msg rvector IOMode.Block
        (some cb)).1 = .err) := by
  refine ⟨?_, ?_, ?_, ?_⟩
  · rw [sendVM4_async_eq fuel s input msg rvector (some cb) hv hrv hm]
  · rw [sendVM4_callback_eq fuel s input msg rvector cb hv hrv hm]
  · rw [sendVM4_discard_eq fuel s input msg rvector (some cb) hv hrv hm]
  · rw [sendVM4_block_eq fuel s input msg rvector (some cb) hv hrv hm]
    rcases handleVectorMessages4 fuel
        { s with keepresult := dictInsert s.keepresult s.vector none,
                 vector := s.vector + 1,
                 slow := s.slow ++ [vframe s.vector rvector msg],
                 slowsz := s.slowsz + (vframe s.vector rvector msg).length }
        input (some s.vector) true with ⟨r, s3, evs2⟩
    cases r with
    | ret m => exact Or.inl ⟨m, rfl⟩
    | err => exact Or.inr rfl

/-- Witness for C6 (amended): the three non-blocking modes at concrete
arguments all return the assigned vector 0. -/
theorem C6_witness :
    (sendVectorMessageWithMode4 0 initSocketBase [] [65] 0 IOMode.Async
        (some 1)).1 = .ok (.vec initSocketBase.vector) ∧
    (sendVectorMessageWithMode4 0 initSocketBase [] [65] 0 IOMode.Callback
        (some 1)).1 = .ok (.vec initSocketBase.vector) ∧
    (sendVectorMessageWithMode4 0 initSocketBase [] [65] 0 IOMode.Discard
        (some 1)).1 = .ok (.vec initSocketBase.vector) := by
  have h := C6_amended_returns 0 initSocketBase [] [65] 0 1
    (by decide) (by decide) (by decide)
  exact ⟨h.1, h.2.1, h.2.2.1⟩

/-- C7: sending payload `p` with reply vector `rv` from an endpoint
whose counter reads `v` emits exactly the frame
`be32(16 + len p) || be64 v || be64 rv || p`, and feeding that frame
into a fresh endpoint and popping one vector message yields exactly
`(v, rv, p)`. -/
theorem C7_vector_roundtrip (v rv : Nat) (p : Bytes)
    (hv : v < 2 ^ 64) (hrv : rv < 2 ^ 64) (hp : 16 + p.length < 2 ^ 32) :
    sendVectorMessage3 { initSocketBase with vector := v } p rv true
      = some (v,
          { initSocketBase with
              vector := v + 1, slow := [vframe v rv p],
              slowsz := 0 + (vframe v rv p).length },
          [.commit (vframe v rv p)]) ∧
    (getVectorMessage3 initSocketBase (some (vframe v rv p))).1
      = some (some (v, rv, p)) := by
  constructor
  · rw [sendVectorMessage3_eq { initSocketBase with vector := v } p rv true hv hrv hp]
    rfl
  · have hpay : (be 8 v ++ be 8 rv ++ p).length = 16 + p.length := by
      simp [be_length]
      omega
    have hflen : (vframe v rv p).length = 20 + p.length := by
      rw [vframe]
      simp [be_length]
      omega
    have hsz : beVal ((vframe v rv p).take 4) = 16 + p.length := by
      rw [vframe, List.take_left' (be_length 4 (16 + p.length))]
      exact beVal_be 4 (16 + p.length) (by norm_num at hp ⊢; omega)
    have hcut : ((vframe v rv p).drop 4).take (16 + p.length)
        = be 8 v ++ be 8 rv ++ p := by
      rw [vframe, List.drop_left' (be_length 4 (16 + p.length)), ← hpay]
      exact List.take_length _
    have hrest : (vframe v rv p).drop (4 + (16 + p.length)) = [] :=
      List.drop_eq_nil_of_le (by rw [hflen]; omega)
    have hpop : getMessage2 initSocketBase (some (vframe v rv p))
        = (some (be 8 v ++ be 8 rv ++ p), initSocketBase) := by
      simp only [getMessage2, initSocketBase, Option.getD_some, List.nil_append,
        hsz, hflen]
      rw [if_pos (by omega : (20 : Nat) + p.length > 4)]
      rw [if_pos (by omega : 20 + p.length - 4 ≥ 16 + p.length)]
      rw [hcut, hrest]
    have hv8 : (be 8 v ++ be 8 rv ++ p).take 8 = be 8 v := by
      rw [List.take_append_of_le_length
        (by rw [List.length_append, be_length, be_length]; omega)]
      rw [List.take_append_of_le_length (by simp [be_length])]
      exact List.take_of_length_le (by simp [be_length])
    have hrv8 : ((be 8 v ++ be 8 rv ++ p).drop 8).take 8 = be 8 rv := by
      rw [List.drop_append_of_le_length
        (by rw [List.length_append, be_length, be_length]; omega)]
      rw [List.drop_left' (be_length 8 v)]
      rw [List.take_append_of_le_length (by simp [be_length])]
      exact List.take_of_length_le (by simp [be_length])
    have hp16 : (be 8 v ++ be 8 rv ++ p).drop 16 = p := by
      rw [List.drop_append_of_le_length
        (by rw [List.length_append, be_length, be_length])]
      rw [show (16 : Nat) = (be 8 v ++ be 8 rv).length by simp [be_length]]
      rw [List.drop_length _]
      rfl
    simp only [getVectorMessage3, hpop]
    rw [if_neg (by rw [hpay]; omega)]
    rw [hv8, hrv8, hp16, beVal_be 8 v hv, beVal_be 8 rv hrv]

/-- Witness for C7 at `v = 5`, `rv = 7`, payload `[65]`. -/
theorem C7_witness :
    sendVectorMessage3 { initSocketBase with vector := 5 } [65] 7 true
      = some (5,
          { initSocketBase with
              vector := 6, slow := [vframe 5 7 [65]],
              slowsz := 0 + (vframe 5 7 [65]).length },
          [.commit (vframe 5 7 [65])]) ∧
    (getVectorMessage3 initSocketBase (some (vframe 5 7 [65]))).1
      = some (some (5, 7, [65])) :=
  C7_vector_roundtrip 5 7 [65] (by decide) (by decide) (by decide)

/-- C8 counterexample: after `send1` of one byte on a fresh endpoint the
data sits in the latency-simulation buffer, the outbound queue is
untouched and `getOutBufferSize1` still reads 0 — not grown by the data
length as the claim states. -/
theorem C8_counterexample :
    getOutBufferSize1 (send1 initSocketBase (some [0]) false).1 = 0 ∧
    (send1 initSocketBase (some [0]) false).1.oubuf = [] ∧
    (send1 initSocketBase (some [0]) false).1.slow = [[0]] ∧
    (send1 initSocketBase (some [0]) false).1.slowsz = 1 := by
  decide

/-- C8 (amended): `send1` appends its data at the tail of the
latency-simulation buffer and grows that buffer's size counter by the
data length, leaving the outbound queue and `getOutBufferSize1`
unchanged; the invariant that `getOutBufferSize1` equals the sum of the
queued chunk lengths is preserved both by `send1` and by the latency
thread's transfer of chunks into the outbound queue. -/
theorem C8_amended_send1 (s : St) (d : Bytes) (b : Bool) (k : Nat) :
    (send1 s (some d) b).1.slow = s.slow ++ [d] ∧
    (send1 s (some d) b).1.slowsz = s.slowsz + d.length ∧
    (send1 s (some d) b).1.oubuf = s.oubuf ∧
    getOutBufferSize1 (send1 s (some d) b).1 = getOutBufferSize1 s ∧
    (goodOut s → goodOut (send1 s (some d) b).1) ∧
    (goodOut s → goodOut (latencyTransfer k s)) := by
  refine ⟨rfl, rfl, rfl, rfl, fun h => h, ?_⟩
  intro h
  unfold goodOut at h ⊢
  simp only [latencyTransfer, List.map_append, List.sum_append]
  omega

/-- Witness for C8 (amended): the invariant holds after a concrete
`send1` and a concrete latency transfer. -/
theorem C8_witness :
    goodOut (send1 initSocketBase (some [1, 2]) false).1 ∧
    goodOut (latencyTransfer 1 initSocketBase) :=
  ⟨(C8_amended_send1 initSocketBase [1, 2] false 1).2.2.2.2.1 rfl,
   (C8_amended_send1 initSocketBase [1, 2] false 1).2.2.2.2.2 rfl⟩

/-- C9: Callback mode without a callback, or a mode outside the four
defined constants, raises synchronously and leaves the endpoint state
exactly as it was: no event is emitted (so no frame is enqueued and no
table entry is inserted) and the vector counter is untouched. -/
theorem C9_misuse_raises (fuel : Nat) (s : St) (input : List Bytes)
    (msg : Bytes) (rvector : Nat) (mode : Nat) (cbopt : Option Nat)
    (h : (mode = IOMode.Callback ∧ cbopt = none) ∨
         (mode ≠ IOMode.Block ∧ mode ≠ IOMode.Async ∧ mode ≠ IOMode.Callback ∧
          mode ≠ IOMode.Discard)) :
    sendVectorMessageWithMode4 fuel s input msg rvector mode cbopt
      = (.err, s, []) := by
  rcases h with ⟨h1, h2⟩ | ⟨h0, h1, h2, h3⟩
  · subst h1
    subst h2
    simp [sendVectorMessageWithMode4, IOMode.Callback, IOMode.Async]
  · simp [sendVectorMessageWithMode4, IOMode.Block, IOMode.Async, IOMode.Callback,
      IOMode.Discard] at h0 h1 h2 h3 ⊢
    simp [h0, h1, h2, h3]

/-- Witness for C9: both misuse cases at concrete arguments. -/
theorem C9_witness :
    sendVectorMessageWithMode4 0 initSocketBase [] [65] 0 IOMode.Callback none
      = (.err, initSocketBase, []) ∧
    sendVectorMessageWithMode4 0 initSocketBase [] [65] 0 9 (some 1)
      = (.err, initSocketBase, []) :=
  ⟨C9_misuse_raises 0 initSocketBase [] [65] 0 IOMode.Callback none
      (Or.inl ⟨rfl, rfl⟩),
   C9_misuse_raises 0 initSocketBase [] [65] 0 9 (some 1)
      (Or.inr (by decide))⟩

/-- C10: a Discard-mode send is observationally the call
`sendVectorMessage3(msg, rvector)`: same returned vector, same state
change and committed bytes (or the same propagated exception), and the
correlation and callback tables are untouched. -/
theorem C10_discard_refines_send3 (fuel : Nat) (s : St) (input : List Bytes)
    (msg : Bytes) (rvector : Nat) (cbopt : Option Nat) :
    sendVectorMessageWithMode4 fuel s input msg rvector IOMode.Discard cbopt
      = (match sendVectorMessage3 s msg rvector true with
         | none => (.err, s, [])
         | some (v, s2, evs) => (.ok (.vec v), s2, evs)) ∧
    (sendVectorMessageWithMode4 fuel s input msg rvector IOMode.Discard
        cbopt).2.1.keepresult = s.keepresult ∧
    (sendVectorMessageWithMode4 fuel s input msg rvector IOMode.Discard
        cbopt).2.1.callback = s.callback := by
  have hmain : sendVectorMessageWithMode4 fuel s input msg rvector IOMode.Discard
      cbopt
      = (match sendVectorMessage3 s msg rvector true with
         | none => (.err, s, [])
         | some (v, s2, evs) => (.ok (.vec v), s2, evs)) := by
    simp only [sendVectorMessageWithMode4]
    rfl
  refine ⟨hmain, ?_, ?_⟩
  · rw [hmain]
    cases hsnd : sendVectorMessage3 s msg rvector true with
    | none => rfl
    | some out =>
      obtain ⟨v, s2, evs⟩ := out
      exact (sendVectorMessage3_tables s msg rvector true v s2 evs hsnd).1
  · rw [hmain]
    cases hsnd : sendVectorMessage3 s msg rvector true with
    | none => rfl
    | some out =>
      obtain ⟨v, s2, evs⟩ := out
      exact (sendVectorMessage3_tables s msg rvector true v s2 evs hsnd).2

end SocketBase
